import Mathlib

/-!
Shallow embedding of the bituin command-line tool (`src/main.go`).

The tool is a project scaffolder for the MicroScript language.  Its only
nontrivial logic is

* the regular-expression based extraction / rewriting of the
  `main_file = "<path>"` assignment in `bituin.toml`
  (Go pattern `main_file\s*=\s*"([^"]+)"`, used with
  `regexp.FindStringSubmatch` and `regexp.ReplaceAllString`), and
* the control flow of `runProject`, `createProject`,
  `addMicroscriptFile` and the `main` dispatcher.

Strings are modelled as Lean `String` / `List Char`.  Filesystem and
subprocess effects are modelled by an explicit environment record (which
answers the existence checks and the subprocess outcome) together with an
event trace listing the operations the code performs, in program order.
`filepath.Join` is modelled as `/`-concatenation of its components (the
path-cleaning step of `Join` is not modelled; all paths are kept
syntactic).
-/

namespace Bituin

/-- Version string constant (`VERSION` in main.go). -/
def VERSION : String := "v0.1.0"

/-- Author string constant (`AUTHOR` in main.go). -/
def AUTHOR : String := "Cyril John Magayaga"

/-- Preview flag constant (`PREVIEW_FLAG` in main.go). -/
def PREVIEW_FLAG : String := "--preview"

/-- Template written for a fresh entry file (`MAIN_MICROSCRIPT` in main.go). -/
def MAIN_MICROSCRIPT : String :=
  "function main() \x7b\n    console.write(\"Hello, World!\");\n\x7d\n\nmain();"

/-- Template written by `add` (the literal inside `addMicroscriptFile`). -/
def ADD_TEMPLATE : String :=
  "function main() \x7b\n    // Add your code here\n\x7d\n\nmain();"

/-- Config template (`getBituinToml` in main.go). -/
def getBituinToml (projectName : String) : String :=
  "[package]\nname = \"" ++ projectName ++ "\"\nmain_file = \"src/main.microscript\""

/-! ### The regular expression `main_file\s*=\s*"([^"]+)"`

The pattern is fixed, so instead of a generic regex engine we embed the
matcher it denotes.  RE2's `\s` is `[\t\n\f\r ]`.  The pattern contains no
ambiguity: `\s*` is followed by a non-space literal and `[^"]+` is
followed by `"`, so greedy matching is deterministic and needs no
backtracking.  `parseAt` decides whether a match starts at the head of
the text; `findFirst` scans left to right for the leftmost match, which
is exactly what both `FindStringSubmatch` and `ReplaceAllString` do. -/

/-- Characters matched by the RE2 class `\s`. -/
def isGoSpace (c : Char) : Bool :=
  c == ' ' || c == '\t' || c == '\n' || c == '\x0C' || c == '\r'

/-- Characters matched by the RE2 class `[^"]`. -/
def notQuote (c : Char) : Bool := c != '\"'

/-- The leading literal `main_file` of the pattern. -/
def mainFileLit : List Char := ['m', 'a', 'i', 'n', '_', 'f', 'i', 'l', 'e']

/-- Matching of a fixed literal at the head of the text: on success,
returns the text after the literal. -/
def dropLit (l s : List Char) : Option (List Char) :=
  if s.take l.length = l then some (s.drop l.length) else none

/-- Result of matching the pattern at one position: the matched text, the
text captured by group 1, and the remaining text after the match. -/
structure MatchInfo where
  matched : List Char
  cap : List Char
  rest : List Char
deriving DecidableEq, Repr

/-- Matching of `main_file\s*=\s*"([^"]+)"` at the head of `s`: the
literal, then greedy `\s*` and the `=`, then greedy `\s*` and the opening
quote, then the greedy nonempty capture `[^"]+` and the closing quote.
Greediness is exact here (no backtracking can help, since `\s` matches
neither `=` nor `"`, and `[^"]` does not match `"`).  In the last stage
the head of `s3.dropWhile notQuote` can only be the closing quote, so it
is not tested again. -/
def parseAt (s : List Char) : Option MatchInfo :=
  match dropLit mainFileLit s with
  | none => none
  | some s1 =>
    match s1.dropWhile isGoSpace with
    | [] => none
    | d :: s2 =>
      if d = '=' then
        match s2.dropWhile isGoSpace with
        | [] => none
        | e :: s3 =>
          if e = '\"' then
            match s3.dropWhile notQuote with
            | [] => none
            | _q :: s4 =>
              if s3.takeWhile notQuote = [] then none
              else some ⟨mainFileLit ++ s1.takeWhile isGoSpace ++
                          '=' :: s2.takeWhile isGoSpace ++
                          '\"' :: s3.takeWhile notQuote ++ ['\"'],
                         s3.takeWhile notQuote, s4⟩
          else none
      else none

/-- Leftmost match of the pattern in a text: the text before the match,
plus the match data. -/
structure FoundMatch where
  pre : List Char
  matched : List Char
  cap : List Char
  rest : List Char
deriving DecidableEq, Repr

/-- Leftmost-match search, as performed by `FindStringSubmatch` and by
each step of `ReplaceAllString`. -/
def findFirst : List Char → Option FoundMatch
  | [] => none
  | c :: t =>
    match parseAt (c :: t) with
    | some mi => some ⟨[], mi.matched, mi.cap, mi.rest⟩
    | none =>
      match findFirst t with
      | none => none
      | some fm => some ⟨c :: fm.pre, fm.matched, fm.cap, fm.rest⟩

/-! ### Go replacement-template expansion

`ReplaceAllString` interprets `$` signs in the replacement text as in
`Regexp.Expand`: `$$` is a literal `$`; `$name` / `${name}` where `name`
is a nonempty run of letters, digits and underscores refers to a capture
group (a purely numeric name without leading zeros is a group index, any
other name is looked up among named groups — our pattern has none, so it
yields the empty string); a `$` not followed by a well-formed name is
kept literally.  Name characters are modelled for the ASCII range. -/

/-- Characters allowed in a `$name` reference. -/
def isNameChar (c : Char) : Bool := c.isAlpha || c.isDigit || c == '_'

/-- Opening brace character (of the `${name}` form). -/
def lbrace : Char := Char.ofNat 123

/-- Closing brace character (of the `${name}` form). -/
def rbrace : Char := Char.ofNat 125

/-- Value substituted for a group reference.  The pattern has exactly the
groups 0 (whole match) and 1 (the capture); every other well-formed name
(out-of-range index, leading-zero index, non-numeric name) yields the
empty string, as in Go. -/
def groupValue (m cap name : List Char) : List Char :=
  if name = ['0'] then m else if name = ['1'] then cap else []

/-- Expansion of a replacement template against a match (`m` = whole
match, `cap` = group 1).  Fuel-driven recursion; the callers always pass
the template's length, which suffices since every step consumes at least
one template character. -/
def expandAux (m cap : List Char) : Nat → List Char → List Char
  | _, [] => []
  | 0, s => s
  | fuel+1, c :: t =>
    if c != '$' then c :: expandAux m cap fuel t
    else
      match t with
      | [] => ['$']
      | d :: t2 =>
        if d == '$' then '$' :: expandAux m cap fuel t2
        else if d == lbrace then
          match t2.dropWhile isNameChar with
          | e :: t3 =>
            if e == rbrace && !(t2.takeWhile isNameChar).isEmpty then
              groupValue m cap (t2.takeWhile isNameChar) ++ expandAux m cap fuel t3
            else '$' :: expandAux m cap fuel t
          | [] => '$' :: expandAux m cap fuel t
        else
          if (t.takeWhile isNameChar).isEmpty then '$' :: expandAux m cap fuel t
          else groupValue m cap (t.takeWhile isNameChar) ++
                 expandAux m cap fuel (t.dropWhile isNameChar)

/-- Expansion of a whole template. -/
def expandTemplate (tmpl m cap : List Char) : List Char :=
  expandAux m cap tmpl.length tmpl

/-- Replace-all loop of `ReplaceAllString`: repeatedly take the leftmost
match of the remaining text and substitute the expanded template.
Fuel-driven; the callers pass the text's length, which suffices since
every match is nonempty. -/
def replaceAllAux (tmpl : List Char) : Nat → List Char → List Char
  | 0, s => s
  | fuel+1, s =>
    match findFirst s with
    | none => s
    | some fm =>
      fm.pre ++ expandTemplate tmpl fm.matched fm.cap ++
        replaceAllAux tmpl fuel fm.rest

/-- Capture list of all matches, in scan order (the group-1 column of
`FindAllStringSubmatch`); used to state what the rewrite does to every
occurrence. -/
def capsAux : Nat → List Char → List (List Char)
  | 0, _ => []
  | fuel+1, s =>
    match findFirst s with
    | none => []
    | some fm => fm.cap :: capsAux fuel fm.rest

/-- Extraction of the `main_file` value from a config text: capture of
the leftmost match, as in `re.FindStringSubmatch(configContent)` with
`matches[1]`; `none` when the pattern does not occur. -/
def readMainFile (config : String) : Option String :=
  match findFirst config.data with
  | none => none
  | some fm => some ⟨fm.cap⟩

/-- Replacement template used by `runProject`:
`fmt.Sprintf("main_file = \"%s\"", newPath)` (the caller passes
`newPath = "src/" ++ filename`). -/
def mainFileTemplate (newPath : String) : List Char :=
  "main_file = \"".data ++ newPath.data ++ ['\"']

/-- Config rewrite performed by `runProject` on an explicit target:
`re.ReplaceAllString(configContent, fmt.Sprintf("main_file = \"src/%s\"", name))`
with `newPath = "src/" ++ name`. -/
def rewriteMainFile (config newPath : String) : String :=
  ⟨replaceAllAux (mainFileTemplate newPath) config.data.length config.data⟩

/-- All `main_file` captures of a config text, as strings. -/
def mainFileCaps (config : String) : List String :=
  (capsAux config.data.length config.data).map (fun l => ⟨l⟩)

/-! ### Predicates describing match shapes -/

/-- Every character is RE2 whitespace. -/
def AllSpace (l : List Char) : Prop := ∀ c ∈ l, isGoSpace c = true

/-- No character is a double quote. -/
def NoQuoteL (l : List Char) : Prop := ∀ c ∈ l, c ≠ '\"'

/-- No character is a dollar sign. -/
def NoDollarL (l : List Char) : Prop := ∀ c ∈ l, c ≠ '$'

/-- Shape of a full match of the pattern whose capture is `cap`:
`main_file`, whitespace, `=`, whitespace, then the quoted nonempty
quote-free capture. -/
def BlockOf (cap m : List Char) : Prop :=
  cap ≠ [] ∧ NoQuoteL cap ∧
  ∃ sp1 sp2, AllSpace sp1 ∧ AllSpace sp2 ∧
    m = mainFileLit ++ sp1 ++ '=' :: sp2 ++ '\"' :: cap ++ ['\"']

/-! ### Small helper lemmas about characters and list scans -/

theorem notQuote_iff (c : Char) : notQuote c = true ↔ c ≠ '\"' := by
  simp [notQuote]

theorem notQuote_false_iff (c : Char) : notQuote c = false ↔ c = '\"' := by
  simp [notQuote]

theorem isGoSpace_cases (c : Char) (h : isGoSpace c = true) :
    c = ' ' ∨ c = '\t' ∨ c = '\n' ∨ c = '\x0C' ∨ c = '\r' := by
  have h' : (((c = ' ' ∨ c = '\t') ∨ c = '\n') ∨ c = '\x0C') ∨ c = '\r' := by
    simpa [isGoSpace] using h
  tauto

theorem isGoSpace_ne_quote (c : Char) (h : isGoSpace c = true) : c ≠ '\"' := by
  rcases isGoSpace_cases c h with h' | h' | h' | h' | h' <;> subst h' <;> decide

theorem dropWhile_append_nil {p : Char → Bool} {a z : List Char}
    (h : a.dropWhile p = []) : (a ++ z).dropWhile p = z.dropWhile p := by
  rw [List.dropWhile_append, h]; simp

theorem dropWhile_append_cons {p : Char → Bool} {a z t : List Char} {d : Char}
    (h : a.dropWhile p = d :: t) :
    (a ++ z).dropWhile p = d :: (t ++ z) := by
  rw [List.dropWhile_append, h]; simp

theorem takeWhile_append_confined {p : Char → Bool} {a z : List Char}
    (h : a.dropWhile p ≠ []) : (a ++ z).takeWhile p = a.takeWhile p := by
  rw [List.takeWhile_append, if_neg]
  intro hlen
  apply h
  have hsplit := List.takeWhile_append_dropWhile p a
  have : (a.takeWhile p).length + (a.dropWhile p).length = a.length := by
    rw [← List.length_append, hsplit]
  have : (a.dropWhile p).length = 0 := by omega
  exact List.length_eq_zero.mp this

theorem takeWhile_of_dropWhile_nil {p : Char → Bool} {a : List Char}
    (h : a.dropWhile p = []) : a.takeWhile p = a := by
  have hsplit := List.takeWhile_append_dropWhile p a
  rw [h, List.append_nil] at hsplit
  exact hsplit

theorem all_of_dropWhile_nil {p : Char → Bool} {a : List Char}
    (h : a.dropWhile p = []) : ∀ c ∈ a, p c = true := by
  intro c hc
  rw [← takeWhile_of_dropWhile_nil h] at hc
  exact List.mem_takeWhile_imp hc

theorem takeWhile_all_stop {p : Char → Bool} {xs z : List Char} {y : Char}
    (hall : ∀ c ∈ xs, p c = true) (hy : p y = false) :
    (xs ++ y :: z).takeWhile p = xs := by
  rw [List.takeWhile_append_of_pos hall, List.takeWhile_cons, hy]
  simp

theorem dropWhile_all_stop {p : Char → Bool} {xs z : List Char} {y : Char}
    (hall : ∀ c ∈ xs, p c = true) (hy : p y = false) :
    (xs ++ y :: z).dropWhile p = y :: z := by
  rw [List.dropWhile_append_of_pos hall, List.dropWhile_cons, hy]
  simp

/-! ### Lemmas about `dropLit` -/

theorem dropLit_some {l s r : List Char} (h : dropLit l s = some r) :
    s = l ++ r := by
  unfold dropLit at h
  split at h
  · next htake =>
      cases h
      conv_lhs => rw [← List.take_append_drop l.length s]
      rw [htake]
  · exact absurd h (by simp)

theorem dropLit_append (l z : List Char) : dropLit l (l ++ z) = some z := by
  unfold dropLit
  rw [if_pos (List.take_left l z)]
  rw [List.drop_left]

theorem dropLit_append_long {l a : List Char} (hle : l.length ≤ a.length)
    (z : List Char) :
    dropLit l (a ++ z) = (dropLit l a).map (· ++ z) := by
  unfold dropLit
  have htake : (a ++ z).take l.length = a.take l.length := by
    rw [List.take_append_eq_append_take, Nat.sub_eq_zero_of_le hle]
    simp
  have hdrop : (a ++ z).drop l.length = a.drop l.length ++ z := by
    rw [List.drop_append_eq_append_drop, Nat.sub_eq_zero_of_le hle]
    simp
  rw [htake, hdrop]
  split <;> simp

/-! ### Shape lemmas for `parseAt` -/

theorem parseAt_nil : parseAt [] = none := by decide

theorem parseAt_block {cap B : List Char} (hB : BlockOf cap B) (z : List Char) :
    parseAt (B ++ z) = some ⟨B, cap, z⟩ := by
  obtain ⟨hne, hnq, sp1, sp2, hs1, hs2, hm⟩ := hB
  subst hm
  have hnqb : ∀ c ∈ cap, notQuote c = true :=
    fun c hc => (notQuote_iff c).mpr (hnq c hc)
  have hassoc : (mainFileLit ++ sp1 ++ '=' :: sp2 ++ '\"' :: cap ++ ['\"']) ++ z =
      mainFileLit ++ (sp1 ++ '=' :: (sp2 ++ '\"' :: (cap ++ '\"' :: z))) := by
    simp
  rw [hassoc]
  unfold parseAt
  rw [dropLit_append]
  dsimp only
  rw [dropWhile_all_stop hs1 (by decide), takeWhile_all_stop hs1 (by decide)]
  dsimp only
  rw [if_pos rfl]
  rw [dropWhile_all_stop hs2 (by decide), takeWhile_all_stop hs2 (by decide)]
  dsimp only
  rw [if_pos rfl]
  rw [takeWhile_all_stop hnqb (by decide), dropWhile_all_stop hnqb (by decide)]
  dsimp only
  rw [if_neg hne]

theorem dropWhile_head_false {p : Char → Bool} {l t : List Char} {d : Char}
    (h : l.dropWhile p = d :: t) : p d = false := by
  induction l with
  | nil => exact absurd h (by simp)
  | cons c l ih =>
    rw [List.dropWhile_cons] at h
    split at h
    · exact ih h
    · next hc =>
        cases h
        exact Bool.eq_false_iff.mpr hc

theorem parseAt_shape {s : List Char} {mi : MatchInfo} (h : parseAt s = some mi) :
    s = mi.matched ++ mi.rest ∧ BlockOf mi.cap mi.matched := by
  unfold parseAt at h
  split at h
  · exact absurd h (by simp)
  next s1 hdl =>
  split at h
  · exact absurd h (by simp)
  next d s2 hdw1 =>
  split at h
  case isFalse => exact absurd h (by simp)
  case isTrue hd =>
  split at h
  · exact absurd h (by simp)
  next e s3 hdw2 =>
  split at h
  case isFalse => exact absurd h (by simp)
  case isTrue he =>
  split at h
  · exact absurd h (by simp)
  next q s4 hdw3 =>
  split at h
  case isTrue => exact absurd h (by simp)
  case isFalse hcap =>
  cases h
  subst hd
  subst he
  have hs : s = mainFileLit ++ s1 := dropLit_some hdl
  have heq1 : s1 = s1.takeWhile isGoSpace ++ '=' :: s2 := by
    conv_lhs => rw [← List.takeWhile_append_dropWhile isGoSpace s1]
    rw [hdw1]
  have heq2 : s2 = s2.takeWhile isGoSpace ++ '\"' :: s3 := by
    conv_lhs => rw [← List.takeWhile_append_dropWhile isGoSpace s2]
    rw [hdw2]
  have hq : q = '\"' := by
    have := dropWhile_head_false hdw3
    simpa [notQuote_false_iff] using this
  have heq3 : s3 = s3.takeWhile notQuote ++ '\"' :: s4 := by
    conv_lhs => rw [← List.takeWhile_append_dropWhile notQuote s3]
    rw [hdw3, hq]
  constructor
  · dsimp only
    conv_lhs => rw [hs, heq1, heq2, heq3]
    simp
  · refine ⟨hcap, ?_, s1.takeWhile isGoSpace, s2.takeWhile isGoSpace,
      ?_, ?_, by simp⟩
    · intro c hc
      exact (notQuote_iff c).mp (List.mem_takeWhile_imp hc)
    · intro c hc
      exact List.mem_takeWhile_imp hc
    · intro c hc
      exact List.mem_takeWhile_imp hc

/-! ### Failure of `parseAt` before a block is independent of the block

When the text is `a ++ X ++ y` with `X` a full match (a "block"), whether
the pattern matches at the very start is a function of `a` alone: the
parse either settles inside `a`, or crosses into `X` — and `X` begins
with `m` (which fails the `\s*=` / `\s*"` stages) and its first quote
closes any capture that is still open (which succeeds).  `scanFailsAt`
computes that function of `a`. -/

/-- Whether a parse of `a ++ X ++ y` starting at the head fails, for any
block `X`, expressed on `a` alone. -/
def scanFailsAt (a : List Char) : Bool :=
  if a = [] then false
  else if a.length < mainFileLit.length then true
  else
    match dropLit mainFileLit a with
    | none => true
    | some a2 =>
      match a2.dropWhile isGoSpace with
      | [] => true
      | d :: a3 =>
        if d = '=' then
          match a3.dropWhile isGoSpace with
          | [] => true
          | e :: a4 =>
            if e = '\"' then
              match a4.dropWhile notQuote with
              | [] => false
              | _ :: _ => decide (a4.takeWhile notQuote = [])
            else true
        else true

theorem mflit_all_notQuote : ∀ c ∈ mainFileLit, notQuote c = true := by decide

theorem block_quotefree_split {cap X : List Char} (hX : BlockOf cap X) :
    ∃ Xq w, X = Xq ++ '\"' :: w ∧ (∀ c ∈ Xq, notQuote c = true) ∧ Xq ≠ [] := by
  obtain ⟨hne, hnq, sp1, sp2, hs1, hs2, rfl⟩ := hX
  refine ⟨mainFileLit ++ sp1 ++ '=' :: sp2, cap ++ ['\"'], by simp, ?_, by simp [mainFileLit]⟩
  intro c hc
  simp only [List.mem_append, List.mem_cons] at hc
  rcases hc with (hc | hc) | hc
  · exact mflit_all_notQuote c hc
  · exact (notQuote_iff c).mpr (isGoSpace_ne_quote c (hs1 c hc))
  · rcases hc with rfl | hc
    · decide
    · exact (notQuote_iff c).mpr (isGoSpace_ne_quote c (hs2 c hc))

theorem block_head_m {cap X : List Char} (hX : BlockOf cap X) (y : List Char) :
    ∃ w, X ++ y = 'm' :: w := by
  obtain ⟨_, _, sp1, sp2, _, _, rfl⟩ := hX
  refine ⟨['a', 'i', 'n', '_', 'f', 'i', 'l', 'e'] ++
    (sp1 ++ '=' :: sp2 ++ '\"' :: cap ++ ['\"']) ++ y, ?_⟩
  simp [mainFileLit]

theorem take_mflit_ne (k : Fin 9) (hk : k.val ≠ 0) :
    mainFileLit.take (9 - k.val) ≠ mainFileLit.drop k.val := by
  revert hk
  revert k
  decide

theorem parseAt_append_block {cap X : List Char} (hX : BlockOf cap X)
    (a y : List Char) :
    parseAt (a ++ (X ++ y)) = none ↔ scanFailsAt a = true := by
  by_cases ha : a = []
  · subst ha
    rw [List.nil_append, parseAt_block hX y]
    simp [scanFailsAt]
  by_cases hlen : a.length < mainFileLit.length
  · -- a is a nonempty strict prefix-length piece: the literal match
    -- must cross into X, whose characters do not continue `main_file`.
    have hfail : parseAt (a ++ (X ++ y)) = none := by
      obtain ⟨hne', hnq', sp1, sp2, hs1', hs2', hXeq⟩ := hX
      unfold parseAt
      have hdln : dropLit mainFileLit (a ++ (X ++ y)) = none := by
        unfold dropLit
        rw [if_neg]
        intro hcontra
        have hml : mainFileLit.length = 9 := by decide
        have hka : a.length ≤ 9 := by omega
        have hta : a.take mainFileLit.length = a :=
          List.take_of_length_le (by omega)
        have htak : (a ++ (X ++ y)).take mainFileLit.length =
            a ++ (X ++ y).take (mainFileLit.length - a.length) := by
          rw [List.take_append_eq_append_take, hta]
        have hXml : X ++ y = mainFileLit ++ (sp1 ++ '=' :: sp2 ++ '\"' :: cap ++ ['\"'] ++ y) := by
          rw [hXeq]; simp
        have hsub : mainFileLit.length - a.length - mainFileLit.length = 0 := by
          omega
        have htak2 : (X ++ y).take (mainFileLit.length - a.length) =
            mainFileLit.take (mainFileLit.length - a.length) := by
          rw [hXml, List.take_append_eq_append_take, hsub, List.take_zero,
            List.append_nil]
        rw [htak, htak2] at hcontra
        have hsplit : mainFileLit = mainFileLit.take a.length ++ mainFileLit.drop a.length :=
          (List.take_append_drop a.length mainFileLit).symm
        rw [hsplit] at hcontra
        have hlentake : a.length = (mainFileLit.take a.length).length := by
          rw [List.length_take]
          omega
        obtain ⟨heq1, heq2⟩ := List.append_inj hcontra hlentake
        exact take_mflit_ne ⟨a.length, by omega⟩
          (by simpa using fun h0 => ha (List.length_eq_zero.mp h0)) (by simpa [hml] using heq2)
      rw [hdln]
    rw [hfail]
    simp only [scanFailsAt, if_neg ha, if_pos hlen]
  · -- the literal comparison settles inside `a`
    have hle : mainFileLit.length ≤ a.length := by omega
    have hdl : dropLit mainFileLit (a ++ (X ++ y)) =
        (dropLit mainFileLit a).map (· ++ (X ++ y)) := dropLit_append_long hle _
    unfold parseAt scanFailsAt
    rw [if_neg ha, if_neg hlen, hdl]
    cases hdla : dropLit mainFileLit a with
    | none => simp
    | some a2 =>
      dsimp only [Option.map]
      cases hdw1 : a2.dropWhile isGoSpace with
      | nil =>
        rw [dropWhile_append_nil hdw1]
        obtain ⟨w, hw⟩ := block_head_m hX y
        rw [hw, List.dropWhile_cons_of_neg (by decide)]
        dsimp only
        rw [if_neg (by decide)]
        simp
      | cons d a3 =>
        rw [dropWhile_append_cons hdw1]
        dsimp only
        by_cases hd : d = '='
        · subst hd
          rw [if_pos rfl, if_pos rfl]
          cases hdw2 : a3.dropWhile isGoSpace with
          | nil =>
            rw [dropWhile_append_nil hdw2]
            obtain ⟨w, hw⟩ := block_head_m hX y
            rw [hw, List.dropWhile_cons_of_neg (by decide)]
            dsimp only
            rw [if_neg (by decide)]
            simp
          | cons e a4 =>
            rw [dropWhile_append_cons hdw2]
            dsimp only
            by_cases he : e = '\"'
            · subst he
              rw [if_pos rfl, if_pos rfl]
              cases hdw3 : a4.dropWhile notQuote with
              | nil =>
                -- the capture crosses into X and closes at X's first
                -- quote: the parse succeeds, both sides are `false`.
                obtain ⟨Xq, w, hXs, hXq, hXqne⟩ := block_quotefree_split hX
                have hall : ∀ c ∈ a4 ++ Xq, notQuote c = true := by
                  intro c hc
                  rcases List.mem_append.mp hc with hc | hc
                  · exact all_of_dropWhile_nil hdw3 c hc
                  · exact hXq c hc
                have hsh : a4 ++ (X ++ y) = (a4 ++ Xq) ++ '\"' :: (w ++ y) := by
                  rw [hXs]; simp
                rw [hsh, takeWhile_all_stop hall (by decide),
                  dropWhile_all_stop hall (by decide)]
                dsimp only
                rw [if_neg (by simp [hXqne])]
                simp
              | cons q a5 =>
                have hq : q = '\"' := by
                  have := dropWhile_head_false hdw3
                  simpa [notQuote_false_iff] using this
                rw [dropWhile_append_cons hdw3,
                  takeWhile_append_confined (by rw [hdw3]; simp)]
                dsimp only
                by_cases hcap : a4.takeWhile notQuote = []
                · rw [if_pos hcap]
                  simp [hcap]
                · rw [if_neg hcap]
                  simp [hcap]
            · rw [if_neg he, if_neg he]
              simp
        · rw [if_neg hd, if_neg hd]
          simp

/-! ### Structure of `findFirst` -/

theorem block_ne_nil {cap m : List Char} (h : BlockOf cap m) : m ≠ [] := by
  obtain ⟨_, _, sp1, sp2, _, _, rfl⟩ := h
  simp [mainFileLit]

theorem findFirst_of_parseAt {z : List Char} {mi : MatchInfo}
    (h : parseAt z = some mi) :
    findFirst z = some ⟨[], mi.matched, mi.cap, mi.rest⟩ := by
  cases z with
  | nil => rw [parseAt_nil] at h; exact absurd h (by simp)
  | cons c t =>
    unfold findFirst
    rw [h]

theorem findFirst_shape {s : List Char} {fm : FoundMatch}
    (h : findFirst s = some fm) :
    s = fm.pre ++ fm.matched ++ fm.rest ∧ BlockOf fm.cap fm.matched := by
  induction s generalizing fm with
  | nil => exact absurd h (by simp [findFirst])
  | cons c t ih =>
    unfold findFirst at h
    cases hp : parseAt (c :: t) with
    | some mi =>
      rw [hp] at h
      cases h
      obtain ⟨hdec, hbl⟩ := parseAt_shape hp
      exact ⟨by simpa using hdec, hbl⟩
    | none =>
      rw [hp] at h
      cases hf : findFirst t with
      | none => rw [hf] at h; exact absurd h (by simp)
      | some fm' =>
        rw [hf] at h
        cases h
        obtain ⟨hdec, hbl⟩ := ih hf
        exact ⟨by simp [hdec], hbl⟩

theorem findFirst_skips {s : List Char} {fm : FoundMatch}
    (h : findFirst s = some fm) :
    ∀ t u, u ++ t = fm.pre → t ≠ [] →
      parseAt (t ++ (fm.matched ++ fm.rest)) = none := by
  induction s generalizing fm with
  | nil => exact absurd h (by simp [findFirst])
  | cons c s' ih =>
    unfold findFirst at h
    cases hp : parseAt (c :: s') with
    | some mi =>
      rw [hp] at h
      cases h
      intro t u hu ht
      exact absurd (List.append_eq_nil.mp hu).2 ht
    | none =>
      rw [hp] at h
      cases hf : findFirst s' with
      | none => rw [hf] at h; exact absurd h (by simp)
      | some fm' =>
        rw [hf] at h
        cases h
        intro t u hu ht
        cases u with
        | nil =>
          simp only [List.nil_append] at hu
          subst hu
          obtain ⟨hdec, _⟩ := findFirst_shape hf
          have : (c :: fm'.pre) ++ (fm'.matched ++ fm'.rest) = c :: s' := by
            rw [hdec]; simp
          dsimp only at this ⊢
          rw [this]
          exact hp
        | cons c' u' =>
          simp only [List.cons_append, List.cons.injEq] at hu
          exact ih hf t u' hu.2 ht

theorem findFirst_build {pre z : List Char} {mi : MatchInfo}
    (hskip : ∀ t u, u ++ t = pre → t ≠ [] → parseAt (t ++ z) = none)
    (hp : parseAt z = some mi) :
    findFirst (pre ++ z) = some ⟨pre, mi.matched, mi.cap, mi.rest⟩ := by
  induction pre with
  | nil =>
    simpa using findFirst_of_parseAt hp
  | cons d pre' ih =>
    have hz : parseAt (d :: (pre' ++ z)) = none := by
      have := hskip (d :: pre') [] rfl (by simp)
      simpa using this
    have hrec : findFirst (pre' ++ z) = some ⟨pre', mi.matched, mi.cap, mi.rest⟩ := by
      apply ih
      intro t u hu ht
      exact hskip t (d :: u) (by rw [← hu]; simp) ht
    rw [List.cons_append]
    unfold findFirst
    cases hpz : pre' ++ z with
    | nil =>
      rw [hpz] at hrec
      exact absurd hrec (by simp [findFirst])
    | cons a b =>
      rw [hpz] at hz hrec
      rw [hz, hrec]

theorem findFirst_replaced {s : List Char} {fm : FoundMatch}
    {capP tmplP : List Char} (hf : findFirst s = some fm)
    (hP : BlockOf capP tmplP) (Q : List Char) :
    findFirst (fm.pre ++ (tmplP ++ Q)) = some ⟨fm.pre, tmplP, capP, Q⟩ := by
  obtain ⟨hdecomp, hblockM⟩ := findFirst_shape hf
  have hskip : ∀ t u, u ++ t = fm.pre → t ≠ [] →
      parseAt (t ++ (tmplP ++ Q)) = none := by
    intro t u hu ht
    have hnoneM : parseAt (t ++ (fm.matched ++ fm.rest)) = none :=
      findFirst_skips hf t u hu ht
    rw [parseAt_append_block hblockM] at hnoneM
    rw [parseAt_append_block hP]
    exact hnoneM
  exact findFirst_build hskip (parseAt_block hP Q)

theorem findFirst_rest_lt {s : List Char} {fm : FoundMatch}
    (h : findFirst s = some fm) : fm.rest.length < s.length := by
  obtain ⟨hdec, hbl⟩ := findFirst_shape h
  have hm : fm.matched ≠ [] := block_ne_nil hbl
  have : 0 < fm.matched.length := List.length_pos.mpr hm
  rw [hdec]
  simp only [List.length_append]
  omega

/-! ### Template expansion and the replacement loop -/

theorem expandAux_no_dollar {m cap t : List Char} (hnd : NoDollarL t) :
    ∀ f, expandAux m cap f t = t := by
  induction t with
  | nil => intro f; cases f <;> rfl
  | cons c t' ih =>
    intro f
    cases f with
    | zero => rfl
    | succ f' =>
      have hc : (c != '$') = true := by
        simp only [bne_iff_ne, ne_eq]
        exact hnd c (by simp)
      unfold expandAux
      rw [if_pos hc]
      have : NoDollarL t' := fun x hx => hnd x (by simp [hx])
      rw [ih this f']

theorem expandTemplate_no_dollar {tmpl m cap : List Char} (hnd : NoDollarL tmpl) :
    expandTemplate tmpl m cap = tmpl :=
  expandAux_no_dollar hnd _

theorem str_data_ne_nil {P : String} (h : P ≠ "") : P.data ≠ [] := by
  intro hd
  apply h
  cases P
  simp_all

theorem mk_data (s : String) : String.mk s.data = s := rfl

theorem template_fixed_part :
    "main_file = \"".data = mainFileLit ++ ' ' :: '=' :: ' ' :: ['\"'] := by
  decide

theorem mainFileTemplate_block {P : String} (hne : P ≠ "")
    (hnq : NoQuoteL P.data) : BlockOf P.data (mainFileTemplate P) := by
  have hsp : AllSpace [' '] := by
    intro c hc
    rw [List.mem_singleton] at hc
    subst hc
    decide
  refine ⟨str_data_ne_nil hne, hnq, [' '], [' '], hsp, hsp, ?_⟩
  unfold mainFileTemplate
  rw [template_fixed_part]
  simp

theorem mainFileTemplate_no_dollar {P : String} (hnd : NoDollarL P.data) :
    NoDollarL (mainFileTemplate P) := by
  intro c hc
  unfold mainFileTemplate at hc
  simp only [List.mem_append] at hc
  rcases hc with (hc | hc) | hc
  · have hfix : ∀ x ∈ "main_file = \"".data, x ≠ '$' := by decide
    exact hfix c hc
  · exact hnd c hc
  · rw [List.mem_singleton] at hc
    subst hc
    decide

theorem replaceAllAux_no_match {tmpl s : List Char}
    (h : findFirst s = none) : ∀ f, replaceAllAux tmpl f s = s := by
  intro f
  cases f with
  | zero => rfl
  | succ f' =>
    unfold replaceAllAux
    rw [h]

theorem rewriteMainFile_no_match {config P : String}
    (h : readMainFile config = none) : rewriteMainFile config P = config := by
  have hf : findFirst config.data = none := by
    unfold readMainFile at h
    cases hf : findFirst config.data with
    | none => rfl
    | some fm => rw [hf] at h; exact absurd h (by simp)
  unfold rewriteMainFile
  rw [replaceAllAux_no_match hf]

theorem capsAux_nil : ∀ f, capsAux f [] = [] := by
  intro f
  cases f with
  | zero => rfl
  | succ f' => unfold capsAux; rfl

theorem capsAux_none {s : List Char} (h : findFirst s = none) :
    ∀ f, capsAux f s = [] := by
  intro f
  cases f with
  | zero => rfl
  | succ f' => unfold capsAux; rw [h]

theorem capsAux_eq_of_le :
    ∀ f₁ f₂ s, s.length ≤ f₁ → s.length ≤ f₂ → capsAux f₁ s = capsAux f₂ s := by
  intro f₁
  induction f₁ with
  | zero =>
    intro f₂ s h1 _
    have : s = [] := List.length_eq_zero.mp (by omega)
    subst this
    rw [capsAux_nil, capsAux_nil]
  | succ f ih =>
    intro f₂ s h1 h2
    cases hf : findFirst s with
    | none => rw [capsAux_none hf, capsAux_none hf]
    | some fm =>
      have hlt := findFirst_rest_lt hf
      cases f₂ with
      | zero =>
        have : s = [] := List.length_eq_zero.mp (by omega)
        subst this
        rw [capsAux_nil, capsAux_nil]
      | succ f₂' =>
        unfold capsAux
        rw [hf]
        dsimp only
        rw [ih f₂' fm.rest (by omega) (by omega)]

/-! ### Rewrite followed by read, and the effect on every occurrence -/

theorem replaceAllAux_succ (tmpl : List Char) (f : Nat) (s : List Char) :
    replaceAllAux tmpl (f + 1) s =
      match findFirst s with
      | none => s
      | some fm => fm.pre ++ expandTemplate tmpl fm.matched fm.cap ++
          replaceAllAux tmpl f fm.rest := rfl

theorem capsAux_succ (f : Nat) (s : List Char) :
    capsAux (f + 1) s =
      match findFirst s with
      | none => []
      | some fm => fm.cap :: capsAux f fm.rest := rfl

theorem rewrite_then_read (config P : String)
    (hsome : (readMainFile config).isSome = true)
    (hne : P ≠ "") (hnq : NoQuoteL P.data) (hnd : NoDollarL P.data) :
    readMainFile (rewriteMainFile config P) = some P := by
  have hf : ∃ fm, findFirst config.data = some fm := by
    unfold readMainFile at hsome
    cases hfc : findFirst config.data with
    | none => rw [hfc] at hsome; simp at hsome
    | some fm => exact ⟨fm, rfl⟩
  obtain ⟨fm, hf⟩ := hf
  have hb := mainFileTemplate_block hne hnq
  have hndt := mainFileTemplate_no_dollar hnd
  have hlen : 0 < config.data.length := by
    have := findFirst_rest_lt hf
    omega
  obtain ⟨k, hk⟩ : ∃ k, config.data.length = k + 1 :=
    ⟨config.data.length - 1, by omega⟩
  unfold rewriteMainFile
  rw [hk]
  have hstep : replaceAllAux (mainFileTemplate P) (k + 1) config.data =
      fm.pre ++ (mainFileTemplate P ++
        replaceAllAux (mainFileTemplate P) k fm.rest) := by
    rw [replaceAllAux_succ, hf]
    dsimp only
    rw [expandTemplate_no_dollar hndt]
    rw [List.append_assoc]
  rw [hstep]
  unfold readMainFile
  dsimp only
  rw [findFirst_replaced hf hb]

theorem caps_after_rewrite (P : String) (hne : P ≠ "") (hnq : NoQuoteL P.data)
    (hnd : NoDollarL P.data) :
    ∀ fuel s, s.length ≤ fuel →
      capsAux (replaceAllAux (mainFileTemplate P) fuel s).length
          (replaceAllAux (mainFileTemplate P) fuel s) =
        List.replicate (capsAux fuel s).length P.data := by
  have hb := mainFileTemplate_block hne hnq
  have hndt := mainFileTemplate_no_dollar hnd
  have htlen : 0 < (mainFileTemplate P).length :=
    List.length_pos.mpr (block_ne_nil hb)
  intro fuel
  induction fuel with
  | zero =>
    intro s hs
    have hnil : s = [] := List.length_eq_zero.mp (by omega)
    subst hnil
    rw [capsAux_nil]
    rw [show replaceAllAux (mainFileTemplate P) 0 [] = [] from rfl]
    rw [capsAux_nil]
    simp
  | succ f ih =>
    intro s hs
    cases hf : findFirst s with
    | none =>
      rw [replaceAllAux_no_match hf, capsAux_none hf, capsAux_none hf]
      simp
    | some fm =>
      have hstep : replaceAllAux (mainFileTemplate P) (f + 1) s =
          fm.pre ++ (mainFileTemplate P ++
            replaceAllAux (mainFileTemplate P) f fm.rest) := by
        rw [replaceAllAux_succ, hf]
        dsimp only
        rw [expandTemplate_no_dollar hndt]
        rw [List.append_assoc]
      have hrhs : capsAux (f + 1) s = fm.cap :: capsAux f fm.rest := by
        rw [capsAux_succ, hf]
      rw [hstep, hrhs]
      have hffr := findFirst_replaced hf hb
        (replaceAllAux (mainFileTemplate P) f fm.rest)
      have hlenpos : 0 < (fm.pre ++ (mainFileTemplate P ++
          replaceAllAux (mainFileTemplate P) f fm.rest)).length := by
        simp only [List.length_append]
        omega
      obtain ⟨k, hk⟩ : ∃ k, (fm.pre ++ (mainFileTemplate P ++
          replaceAllAux (mainFileTemplate P) f fm.rest)).length = k + 1 :=
        ⟨(fm.pre ++ (mainFileTemplate P ++
          replaceAllAux (mainFileTemplate P) f fm.rest)).length - 1, by omega⟩
      rw [hk]
      have hlhs : capsAux (k + 1) (fm.pre ++ (mainFileTemplate P ++
          replaceAllAux (mainFileTemplate P) f fm.rest)) =
          P.data :: capsAux k (replaceAllAux (mainFileTemplate P) f fm.rest) := by
        rw [capsAux_succ, hffr]
      rw [hlhs]
      have hQk : (replaceAllAux (mainFileTemplate P) f fm.rest).length ≤ k := by
        simp only [List.length_append] at hk
        omega
      rw [capsAux_eq_of_le k (replaceAllAux (mainFileTemplate P) f fm.rest).length
        (replaceAllAux (mainFileTemplate P) f fm.rest) hQk (le_refl _)]
      have hrl : fm.rest.length ≤ f := by
        have := findFirst_rest_lt hf
        omega
      rw [ih fm.rest hrl]
      rw [List.length_cons, List.replicate_succ]

/-! ### Embedding of `runProject`, `createProject`, `addMicroscriptFile`
and the `main` dispatcher

Effects are modelled with an environment record answering the existence
checks (`os.Stat`), the read/write outcomes and the subprocess result,
plus an event trace in program order.  Failed operations are modelled as
performing no mutation.  `os.Getwd` is modelled as always succeeding with
`env.cwd`.  `filepath.Join` is modelled as `/`-concatenation. -/

/-- Default entry file name (`"main.microscript"` in `runProject`). -/
def defaultEntryName : String := "main.microscript"

/-- Argument scan of `runProject` (the `for i := 1; i < len(args); i++`
loop): every `--preview` argument turns preview mode on, any other
argument overwrites `targetFile`, so the last non-flag argument wins and
`targetFile` stays `""` when none is given. -/
def parseRunArgs (args : List String) : Bool × String :=
  (args.drop 1).foldl
    (fun acc a => if a == PREVIEW_FLAG then (true, acc.2) else (acc.1, a))
    (false, "")

/-- Last component of a `/`-separated path (model of `filepath.Base`,
restricted to the nonempty clean paths this tool produces). -/
def baseName (p : String) : String :=
  ⟨(p.data.reverse.takeWhile (fun c => c != '/')).reverse⟩

/-- Environment answering the effects `runProject` performs. -/
structure RunEnv where
  cwd : String
  tomlExists : Bool
  readOk : Bool
  configText : String
  writeOk : Bool
  fileExists : String → Bool
  execSucceeds : Bool
  execOutput : String

/-- Filesystem / process events of a `runProject` execution, in program
order.  Only successful operations are recorded. -/
inductive FsEvent where
  | statToml
  | readConfig
  | writeConfig (content : String)
  | statMain (path : String)
  | statExe (path : String)
  | execRun (exePath : String) (mainPath : String)
deriving DecidableEq, Repr

/-- Result of a `runProject` execution: exit status, error message (if
any), the final content of `bituin.toml`, and the event trace. -/
structure RunOutcome where
  exit : Nat
  errMsg : Option String
  finalConfig : String
  events : List FsEvent
deriving DecidableEq, Repr

/-- Interpreter executable name selected by the preview flag. -/
def interpreterName (pv : Bool) : String :=
  if pv then "microscript-preview.exe" else "microscript.exe"

/-- The single candidate interpreter location,
`filepath.Join(cwd, "..", executableName)`. -/
def interpreterPath (env : RunEnv) (pv : Bool) : String :=
  env.cwd ++ "/../" ++ interpreterName pv

/-- Tail of `runProject` after the main file is resolved: the existence
check on the entry file, the interpreter lookup in the parent directory,
and the subprocess invocation (`exec.Command(microscriptExe, "run",
mainFile)`).  `_mainFileName` is the name used only by the progress
messages, which are not part of the modelled outcome. -/
def finishRun (env : RunEnv) (isPreview : Bool) (mainFile _mainFileName : String)
    (finalCfg : String) (evs : List FsEvent) : RunOutcome :=
  if env.fileExists mainFile = false then
    ⟨1, some ("Error: Main file \"" ++ mainFile ++ "\" not found."), finalCfg,
      evs ++ [.statMain mainFile]⟩
  else
    let executableName := interpreterName isPreview
    let microscriptExe := env.cwd ++ "/../" ++ executableName
    if env.fileExists microscriptExe = false then
      ⟨1, some ("Error: " ++ executableName ++ " not found in parent directory."),
        finalCfg, evs ++ [.statMain mainFile, .statExe microscriptExe]⟩
    else if env.execSucceeds = false then
      ⟨1, some "Error: execution failed", finalCfg,
        evs ++ [.statMain mainFile, .statExe microscriptExe,
          .execRun microscriptExe mainFile]⟩
    else
      ⟨0, none, finalCfg,
        evs ++ [.statMain mainFile, .statExe microscriptExe,
          .execRun microscriptExe mainFile]⟩

/-- Model of `runProject(args)` (`args` is `os.Args[1:]`, so `args[0]` is
`"run"`).  After the argument scan: the project marker check, the config
read, the entry-file resolution — an explicit target rewrites the config
and persists it immediately, otherwise the config's `main_file` is used,
defaulting to `src/main.microscript` — then `finishRun`. -/
def runProject (args : List String) (env : RunEnv) : RunOutcome :=
  let pt := parseRunArgs args
  let isPreview := pt.1
  let targetFile := pt.2
  if env.tomlExists = false then
    ⟨1, some "Error: bituin.toml not found. Are you in a bituin project directory?",
      env.configText, [.statToml]⟩
  else if env.readOk = false then
    ⟨1, some "Error reading bituin.toml", env.configText, [.statToml]⟩
  else if targetFile ≠ "" then
    let mainFileName := targetFile
    let mainFile := env.cwd ++ "/src/" ++ mainFileName
    let updated := rewriteMainFile env.configText ("src/" ++ mainFileName)
    if env.writeOk = false then
      ⟨1, some "Error updating bituin.toml", env.configText, [.statToml, .readConfig]⟩
    else
      finishRun env isPreview mainFile mainFileName updated
        [.statToml, .readConfig, .writeConfig updated]
  else
    match readMainFile env.configText with
    | none =>
      finishRun env isPreview (env.cwd ++ "/src/" ++ defaultEntryName)
        defaultEntryName env.configText [.statToml, .readConfig]
    | some rel =>
      let mainFile := env.cwd ++ "/" ++ rel
      finishRun env isPreview mainFile (baseName mainFile) env.configText
        [.statToml, .readConfig]

/-- Environment for `createProject` / `addMicroscriptFile`. -/
structure NewEnv where
  cwd : String
  pathExists : String → Bool
  tomlExists : Bool
  mkdirOk : Bool
  writeMainOk : Bool
  writeCfgOk : Bool

/-- Filesystem events of `createProject` / `addMicroscriptFile`. -/
inductive CpEvent where
  | statPath (path : String)
  | mkdirAll (path : String)
  | writeFileAt (path : String) (content : String)
deriving DecidableEq, Repr

/-- Result of `createProject` / `addMicroscriptFile`. -/
structure CpOutcome where
  exit : Nat
  errMsg : Option String
  events : List CpEvent
deriving DecidableEq, Repr

/-- Model of `createProject(projectName, isNew)`: for `new` the target is
`cwd/<name>` and an existing entry of any kind aborts before any
mutation; for `init` the target is `cwd` with no existence check.  Then
`createDirectoryStructure`, `createMainMicroscript`,
`createBituinConfig`, each aborting on failure. -/
def createProject (projectName : String) (isNew : Bool) (env : NewEnv) : CpOutcome :=
  let projectPath := if isNew then env.cwd ++ "/" ++ projectName else env.cwd
  let preEvents := if isNew then [CpEvent.statPath projectPath] else []
  if isNew && env.pathExists projectPath then
    ⟨1, some ("Error: Directory \"" ++ projectName ++ "\" already exists."),
      preEvents⟩
  else if env.mkdirOk = false then
    ⟨1, some "Error creating directory structure", preEvents⟩
  else if env.writeMainOk = false then
    ⟨1, some "Error creating main.microscript",
      preEvents ++ [.mkdirAll projectPath, .mkdirAll (projectPath ++ "/src")]⟩
  else if env.writeCfgOk = false then
    ⟨1, some "Error creating bituin.toml",
      preEvents ++ [.mkdirAll projectPath, .mkdirAll (projectPath ++ "/src"),
        .writeFileAt (projectPath ++ "/src/main.microscript") MAIN_MICROSCRIPT]⟩
  else
    ⟨0, none,
      preEvents ++ [.mkdirAll projectPath, .mkdirAll (projectPath ++ "/src"),
        .writeFileAt (projectPath ++ "/src/main.microscript") MAIN_MICROSCRIPT,
        .writeFileAt (projectPath ++ "/bituin.toml") (getBituinToml projectName)]⟩

/-- Model of `addMicroscriptFile(filename)`: requires `bituin.toml` in the
current directory, creates `src/` if missing, then writes the template to
`src/<filename>`. -/
def addMicroscriptFile (filename : String) (env : NewEnv) : CpOutcome :=
  if env.tomlExists = false then
    ⟨1, some "Error: Not in a Bituin project directory",
      [.statPath (env.cwd ++ "/bituin.toml")]⟩
  else if env.mkdirOk = false then
    ⟨1, some "Error creating src directory",
      [.statPath (env.cwd ++ "/bituin.toml")]⟩
  else if env.writeMainOk = false then
    ⟨1, some "Error creating MicroScript file",
      [.statPath (env.cwd ++ "/bituin.toml"), .mkdirAll (env.cwd ++ "/src")]⟩
  else
    ⟨0, none,
      [.statPath (env.cwd ++ "/bituin.toml"), .mkdirAll (env.cwd ++ "/src"),
        .writeFileAt (env.cwd ++ "/src/" ++ filename) ADD_TEMPLATE]⟩

/-- Action selected by the `main` dispatcher. -/
inductive DispatchResult where
  | showUsage (exit : Nat)
  | showVersion
  | showAuthor
  | usageError (msg : String)
  | createProj (name : String) (isNew : Bool)
  | addFile (filename : String)
  | runProj (args : List String)
  | unknownCmd (cmd : String)
deriving DecidableEq, Repr

/-- Model of `main` on `args = os.Args[1:]`: routing of the first token.
`usageError msg` stands for printing `msg` and the usage text and exiting
with status 1; `showUsage 1` is the no-argument / unknown-command path's
usage print with exit 1 (`showUsage 0` is `help`). -/
def mainDispatch (args : List String) : DispatchResult :=
  match args with
  | [] => .showUsage 1
  | command :: rest =>
    if command = "help" then .showUsage 0
    else if command = "version" then .showVersion
    else if command = "author" then .showAuthor
    else if command = "new" then
      match rest with
      | [] => .usageError "Error: Project name required for new command"
      | name :: _ => .createProj name true
    else if command = "init" then
      match rest with
      | [] => .usageError "Error: Project name required for init command"
      | name :: _ => .createProj name false
    else if command = "add" then
      match rest with
      | [] => .usageError "Error: File name required for add command"
      | name :: _ => .addFile name
    else if command = "run" then .runProj args
    else .unknownCmd command

/-! ### Helper facts about `finishRun` -/

theorem finishRun_spec (env : RunEnv) (pv : Bool) (mf mfn cfg : String)
    (evs : List FsEvent) :
    (finishRun env pv mf mfn cfg evs).finalConfig = cfg ∧
    (∃ suffix, (finishRun env pv mf mfn cfg evs).events =
      evs ++ FsEvent.statMain mf :: suffix) ∧
    (env.fileExists mf = false →
      (finishRun env pv mf mfn cfg evs).exit = 1 ∧
      (finishRun env pv mf mfn cfg evs).events = evs ++ [FsEvent.statMain mf]) := by
  unfold finishRun
  by_cases h1 : env.fileExists mf = false
  · rw [if_pos h1]
    exact ⟨rfl, ⟨[], by simp⟩, fun _ => ⟨rfl, by simp⟩⟩
  · rw [if_neg h1]
    dsimp only
    by_cases h2 : env.fileExists (env.cwd ++ "/../" ++ interpreterName pv) = false
    · rw [if_pos h2]
      exact ⟨rfl, ⟨[FsEvent.statExe (env.cwd ++ "/../" ++ interpreterName pv)],
        by simp⟩, fun hc => absurd hc h1⟩
    · rw [if_neg h2]
      by_cases h3 : env.execSucceeds = false
      · rw [if_pos h3]
        exact ⟨rfl, ⟨[FsEvent.statExe (env.cwd ++ "/../" ++ interpreterName pv),
          FsEvent.execRun (env.cwd ++ "/../" ++ interpreterName pv) mf],
          by simp⟩, fun hc => absurd hc h1⟩
      · rw [if_neg h3]
        exact ⟨rfl, ⟨[FsEvent.statExe (env.cwd ++ "/../" ++ interpreterName pv),
          FsEvent.execRun (env.cwd ++ "/../" ++ interpreterName pv) mf],
          by simp⟩, fun hc => absurd hc h1⟩

/-! ### The claims -/

/-- C1: when `run` is invoked with an explicit target filename `F`, the
config is rewritten to point at `src/F` and persisted before the
entry-file existence check and before any subprocess invocation, so a run
that fails because `src/F` does not exist still leaves the config
pointing at the (possibly nonexistent) target. -/
theorem run_rewrites_config_before_checks (args : List String) (env : RunEnv)
    (F : String) (hF : (parseRunArgs args).2 = F) (hne : F ≠ "")
    (ht : env.tomlExists = true) (hr : env.readOk = true)
    (hw : env.writeOk = true) :
    (runProject args env).finalConfig =
      rewriteMainFile env.configText ("src/" ++ F) ∧
    (∃ suffix, (runProject args env).events =
      [FsEvent.statToml, FsEvent.readConfig,
       FsEvent.writeConfig (rewriteMainFile env.configText ("src/" ++ F)),
       FsEvent.statMain (env.cwd ++ "/src/" ++ F)] ++ suffix) ∧
    (env.fileExists (env.cwd ++ "/src/" ++ F) = false →
      (runProject args env).exit = 1 ∧
      ∀ e m, FsEvent.execRun e m ∉ (runProject args env).events) := by
  have hrun : runProject args env =
      finishRun env (parseRunArgs args).1 (env.cwd ++ "/src/" ++ F) F
        (rewriteMainFile env.configText ("src/" ++ F))
        [FsEvent.statToml, FsEvent.readConfig,
         FsEvent.writeConfig (rewriteMainFile env.configText ("src/" ++ F))] := by
    unfold runProject
    dsimp only
    rw [hF, ht, hr, hw]
    rw [if_neg (by decide : ¬(true = false))]
    rw [if_neg (by decide : ¬(true = false))]
    rw [if_pos hne]
    rw [if_neg (by decide : ¬(true = false))]
  obtain ⟨hcfg, ⟨suffix, hev⟩, hmiss⟩ := finishRun_spec env (parseRunArgs args).1
    (env.cwd ++ "/src/" ++ F) F
    (rewriteMainFile env.configText ("src/" ++ F))
    [FsEvent.statToml, FsEvent.readConfig,
     FsEvent.writeConfig (rewriteMainFile env.configText ("src/" ++ F))]
  rw [hrun]
  refine ⟨hcfg, ⟨suffix, by simpa using hev⟩, fun hfe => ?_⟩
  obtain ⟨hexit, hevm⟩ := hmiss hfe
  refine ⟨hexit, fun e m hmem => ?_⟩
  rw [hevm] at hmem
  simp at hmem

/-- C1 witness: a concrete run with an explicit target whose entry file
does not exist still ends with the config rewritten to the target. -/
theorem run_rewrites_config_before_checks_witness :
    ((parseRunArgs ["run", "foo.microscript"]).2 = "foo.microscript" ∧
     "foo.microscript" ≠ "" ∧
     (RunEnv.mk "/p" true true "main_file = \"src/main.microscript\"" true
        (fun _ => false) false "").tomlExists = true) ∧
    ((runProject ["run", "foo.microscript"]
        (RunEnv.mk "/p" true true "main_file = \"src/main.microscript\"" true
          (fun _ => false) false "")).finalConfig =
      rewriteMainFile "main_file = \"src/main.microscript\"" ("src/" ++ "foo.microscript") ∧
     (∃ suffix, (runProject ["run", "foo.microscript"]
        (RunEnv.mk "/p" true true "main_file = \"src/main.microscript\"" true
          (fun _ => false) false "")).events =
      [FsEvent.statToml, FsEvent.readConfig,
       FsEvent.writeConfig (rewriteMainFile "main_file = \"src/main.microscript\""
         ("src/" ++ "foo.microscript")),
       FsEvent.statMain ("/p" ++ "/src/" ++ "foo.microscript")] ++ suffix) ∧
     ((fun (_ : String) => false) ("/p" ++ "/src/" ++ "foo.microscript") = false →
      (runProject ["run", "foo.microscript"]
        (RunEnv.mk "/p" true true "main_file = \"src/main.microscript\"" true
          (fun _ => false) false "")).exit = 1 ∧
      ∀ e m, FsEvent.execRun e m ∉ (runProject ["run", "foo.microscript"]
        (RunEnv.mk "/p" true true "main_file = \"src/main.microscript\"" true
          (fun _ => false) false "")).events)) :=
  ⟨⟨by decide, by decide, rfl⟩,
   run_rewrites_config_before_checks ["run", "foo.microscript"]
     (RunEnv.mk "/p" true true "main_file = \"src/main.microscript\"" true
       (fun _ => false) false "")
     "foo.microscript" (by decide) (by decide) rfl rfl rfl⟩

/-- C5: a `run` with no explicit target whose config text contains no
`main_file` assignment resolves the entry file to
`src/main.microscript` under the current working directory. -/
theorem run_default_entry (args : List String) (env : RunEnv)
    (hF : (parseRunArgs args).2 = "")
    (ht : env.tomlExists = true) (hr : env.readOk = true)
    (hcfg : readMainFile env.configText = none) :
    (∃ suffix, (runProject args env).events =
      [FsEvent.statToml, FsEvent.readConfig,
       FsEvent.statMain (env.cwd ++ "/src/" ++ defaultEntryName)] ++ suffix) ∧
    defaultEntryName = "main.microscript" := by
  have hrun : runProject args env =
      finishRun env (parseRunArgs args).1 (env.cwd ++ "/src/" ++ defaultEntryName)
        defaultEntryName env.configText [FsEvent.statToml, FsEvent.readConfig] := by
    unfold runProject
    dsimp only
    rw [hF, ht, hr]
    rw [if_neg (by decide : ¬(true = false))]
    rw [if_neg (by decide : ¬(true = false))]
    rw [if_neg (by decide : ¬(("" : String) ≠ ""))]
    rw [hcfg]
  rw [hrun]
  obtain ⟨_, ⟨suffix, hev⟩, _⟩ := finishRun_spec env (parseRunArgs args).1
    (env.cwd ++ "/src/" ++ defaultEntryName) defaultEntryName env.configText
    [FsEvent.statToml, FsEvent.readConfig]
  exact ⟨⟨suffix, by simpa using hev⟩, rfl⟩

/-- C5 witness: concrete run with no target and a config lacking
`main_file` checks the default entry path. -/
theorem run_default_entry_witness :
    ((parseRunArgs ["run"]).2 = "" ∧
     readMainFile "name = \"demo\"" = none) ∧
    ((∃ suffix, (runProject ["run"]
        (RunEnv.mk "/p" true true "name = \"demo\"" true
          (fun _ => false) false "")).events =
      [FsEvent.statToml, FsEvent.readConfig,
       FsEvent.statMain ("/p" ++ "/src/" ++ defaultEntryName)] ++ suffix) ∧
     defaultEntryName = "main.microscript") :=
  ⟨⟨by decide, by decide⟩,
   run_default_entry ["run"]
     (RunEnv.mk "/p" true true "name = \"demo\"" true (fun _ => false) false "")
     (by decide) rfl rfl (by decide)⟩

/-- C9: a `run` with an explicit target whose config text contains no
`main_file` assignment performs a silent no-op rewrite — the config file
is written back byte-identical, nothing is appended — and the run
proceeds using `src/<filename>` as the entry path. -/
theorem run_rewrite_noop_when_absent (args : List String) (env : RunEnv)
    (F : String) (hF : (parseRunArgs args).2 = F) (hne : F ≠ "")
    (ht : env.tomlExists = true) (hr : env.readOk = true)
    (hw : env.writeOk = true)
    (hcfg : readMainFile env.configText = none) :
    rewriteMainFile env.configText ("src/" ++ F) = env.configText ∧
    (runProject args env).finalConfig = env.configText ∧
    (∃ suffix, (runProject args env).events =
      [FsEvent.statToml, FsEvent.readConfig,
       FsEvent.writeConfig env.configText,
       FsEvent.statMain (env.cwd ++ "/src/" ++ F)] ++ suffix) := by
  have hnoop : rewriteMainFile env.configText ("src/" ++ F) = env.configText :=
    rewriteMainFile_no_match hcfg
  have hrun : runProject args env =
      finishRun env (parseRunArgs args).1 (env.cwd ++ "/src/" ++ F) F
        (rewriteMainFile env.configText ("src/" ++ F))
        [FsEvent.statToml, FsEvent.readConfig,
         FsEvent.writeConfig (rewriteMainFile env.configText ("src/" ++ F))] := by
    unfold runProject
    dsimp only
    rw [hF, ht, hr, hw]
    rw [if_neg (by decide : ¬(true = false))]
    rw [if_neg (by decide : ¬(true = false))]
    rw [if_pos hne]
    rw [if_neg (by decide : ¬(true = false))]
  rw [hrun, hnoop]
  obtain ⟨hcfg2, ⟨suffix, hev⟩, _⟩ := finishRun_spec env (parseRunArgs args).1
    (env.cwd ++ "/src/" ++ F) F env.configText
    [FsEvent.statToml, FsEvent.readConfig, FsEvent.writeConfig env.configText]
  exact ⟨rfl, hcfg2, ⟨suffix, by simpa using hev⟩⟩

/-- C9 witness: concrete run with explicit target over a config without
`main_file`: the config written back is byte-identical and the default
path uses the target name. -/
theorem run_rewrite_noop_when_absent_witness :
    ((parseRunArgs ["run", "app.microscript"]).2 = "app.microscript" ∧
     readMainFile "name = \"demo\"" = none) ∧
    (rewriteMainFile "name = \"demo\"" ("src/" ++ "app.microscript") = "name = \"demo\"" ∧
     (runProject ["run", "app.microscript"]
        (RunEnv.mk "/p" true true "name = \"demo\"" true
          (fun _ => false) false "")).finalConfig = "name = \"demo\"" ∧
     (∃ suffix, (runProject ["run", "app.microscript"]
        (RunEnv.mk "/p" true true "name = \"demo\"" true
          (fun _ => false) false "")).events =
      [FsEvent.statToml, FsEvent.readConfig,
       FsEvent.writeConfig "name = \"demo\"",
       FsEvent.statMain ("/p" ++ "/src/" ++ "app.microscript")] ++ suffix)) :=
  ⟨⟨by decide, by decide⟩,
   run_rewrite_noop_when_absent ["run", "app.microscript"]
     (RunEnv.mk "/p" true true "name = \"demo\"" true (fun _ => false) false "")
     "app.microscript" (by decide) (by decide) rfl rfl rfl (by decide)⟩

/-- Helper for C10: behaviour of the interpreter lookup inside
`finishRun`, for any prior events that contain no `statExe` and no
`execRun`. -/
theorem finishRun_exe_spec (env : RunEnv) (pv : Bool) (mf mfn cfg : String)
    (evs : List FsEvent)
    (hse : ∀ q, FsEvent.statExe q ∉ evs)
    (hxr : ∀ e m, FsEvent.execRun e m ∉ evs) :
    (∀ q, FsEvent.statExe q ∈ (finishRun env pv mf mfn cfg evs).events →
      q = interpreterPath env pv) ∧
    (FsEvent.statExe (interpreterPath env pv) ∈
        (finishRun env pv mf mfn cfg evs).events →
      env.fileExists (interpreterPath env pv) = false →
      (finishRun env pv mf mfn cfg evs).exit = 1 ∧
      (finishRun env pv mf mfn cfg evs).errMsg =
        some ("Error: " ++ interpreterName pv ++ " not found in parent directory.") ∧
      ∀ e m, FsEvent.execRun e m ∉ (finishRun env pv mf mfn cfg evs).events) ∧
    (FsEvent.statExe (interpreterPath env pv) ∈
        (finishRun env pv mf mfn cfg evs).events →
      env.fileExists (interpreterPath env pv) = true →
      ∃ m, FsEvent.execRun (interpreterPath env pv) m ∈
        (finishRun env pv mf mfn cfg evs).events) := by
  unfold finishRun interpreterPath
  by_cases h1 : env.fileExists mf = false
  · rw [if_pos h1]
    dsimp only
    refine ⟨?_, ?_, ?_⟩
    · intro q hq
      rw [List.mem_append] at hq
      rcases hq with hq | hq
      · exact absurd hq (hse q)
      · simp at hq
    · intro hmem
      rw [List.mem_append] at hmem
      rcases hmem with hmem | hmem
      · exact absurd hmem (hse _)
      · simp at hmem
    · intro hmem
      rw [List.mem_append] at hmem
      rcases hmem with hmem | hmem
      · exact absurd hmem (hse _)
      · simp at hmem
  · rw [if_neg h1]
    dsimp only
    by_cases h2 : env.fileExists (env.cwd ++ "/../" ++ interpreterName pv) = false
    · rw [if_pos h2]
      dsimp only
      refine ⟨?_, ?_, ?_⟩
      · intro q hq
        rw [List.mem_append] at hq
        rcases hq with hq | hq
        · exact absurd hq (hse q)
        · rcases List.mem_cons.mp hq with hq | hq
          · exact absurd hq (by simp)
          · have hq2 := List.mem_singleton.mp hq
            injection hq2
      · intro _ _
        refine ⟨rfl, rfl, fun e m hmem => ?_⟩
        rw [List.mem_append] at hmem
        rcases hmem with hmem | hmem
        · exact absurd hmem (hxr e m)
        · simp at hmem
      · intro _ hex
        exact absurd hex (by simp [h2])
    · rw [if_neg h2]
      have hcommon : ∀ q, FsEvent.statExe q ∈ evs ++ [FsEvent.statMain mf,
            FsEvent.statExe (env.cwd ++ "/../" ++ interpreterName pv),
            FsEvent.execRun (env.cwd ++ "/../" ++ interpreterName pv) mf] →
            q = env.cwd ++ "/../" ++ interpreterName pv := by
        intro q hq
        rw [List.mem_append] at hq
        rcases hq with hq | hq
        · exact absurd hq (hse q)
        · rcases List.mem_cons.mp hq with hq | hq
          · exact absurd hq (by simp)
          · rcases List.mem_cons.mp hq with hq | hq
            · injection hq
            · simp at hq
      by_cases h3 : env.execSucceeds = false
      · rw [if_pos h3]
        dsimp only
        refine ⟨hcommon, ?_, ?_⟩
        · intro _ hex
          exact absurd hex h2
        · intro _ _
          exact ⟨mf, by simp⟩
      · rw [if_neg h3]
        dsimp only
        refine ⟨hcommon, ?_, ?_⟩
        · intro _ hex
          exact absurd hex h2
        · intro _ _
          exact ⟨mf, by simp⟩

/-- C10: the interpreter executable is looked up exclusively at
`<cwd>/../<name>` with `<name>` selected by the preview flag; whenever
that lookup happens, the run fails with the interpreter-not-found error
if and only if that single parent-directory candidate does not exist (a
copy in the project directory itself is never consulted). -/
theorem run_interpreter_lookup (args : List String) (env : RunEnv) :
    (∀ q, FsEvent.statExe q ∈ (runProject args env).events →
      q = interpreterPath env (parseRunArgs args).1) ∧
    (FsEvent.statExe (interpreterPath env (parseRunArgs args).1) ∈
        (runProject args env).events →
      env.fileExists (interpreterPath env (parseRunArgs args).1) = false →
      (runProject args env).exit = 1 ∧
      (runProject args env).errMsg =
        some ("Error: " ++ interpreterName (parseRunArgs args).1 ++
          " not found in parent directory.") ∧
      ∀ e m, FsEvent.execRun e m ∉ (runProject args env).events) ∧
    (FsEvent.statExe (interpreterPath env (parseRunArgs args).1) ∈
        (runProject args env).events →
      env.fileExists (interpreterPath env (parseRunArgs args).1) = true →
      ∃ m, FsEvent.execRun (interpreterPath env (parseRunArgs args).1) m ∈
        (runProject args env).events) := by
  by_cases ht : env.tomlExists = false
  · have hrp : runProject args env =
        ⟨1, some "Error: bituin.toml not found. Are you in a bituin project directory?",
          env.configText, [FsEvent.statToml]⟩ := by
      unfold runProject
      dsimp only
      rw [if_pos ht]
    rw [hrp]
    exact ⟨fun q hq => absurd hq (by simp),
      fun hmem => absurd hmem (by simp),
      fun hmem => absurd hmem (by simp)⟩
  · by_cases hr : env.readOk = false
    · have hrp : runProject args env =
          ⟨1, some "Error reading bituin.toml", env.configText,
            [FsEvent.statToml]⟩ := by
        unfold runProject
        dsimp only
        rw [if_neg ht, if_pos hr]
      rw [hrp]
      exact ⟨fun q hq => absurd hq (by simp),
        fun hmem => absurd hmem (by simp),
        fun hmem => absurd hmem (by simp)⟩
    · by_cases htf : (parseRunArgs args).2 ≠ ""
      · by_cases hw : env.writeOk = false
        · have hrp : runProject args env =
              ⟨1, some "Error updating bituin.toml", env.configText,
                [FsEvent.statToml, FsEvent.readConfig]⟩ := by
            unfold runProject
            dsimp only
            rw [if_neg ht, if_neg hr, if_pos htf, if_pos hw]
          rw [hrp]
          exact ⟨fun q hq => absurd hq (by simp),
            fun hmem => absurd hmem (by simp),
            fun hmem => absurd hmem (by simp)⟩
        · have hrp : runProject args env =
              finishRun env (parseRunArgs args).1
                (env.cwd ++ "/src/" ++ (parseRunArgs args).2) (parseRunArgs args).2
                (rewriteMainFile env.configText ("src/" ++ (parseRunArgs args).2))
                [FsEvent.statToml, FsEvent.readConfig,
                 FsEvent.writeConfig (rewriteMainFile env.configText
                   ("src/" ++ (parseRunArgs args).2))] := by
            unfold runProject
            dsimp only
            rw [if_neg ht, if_neg hr, if_pos htf, if_neg hw]
          rw [hrp]
          exact finishRun_exe_spec env (parseRunArgs args).1
            (env.cwd ++ "/src/" ++ (parseRunArgs args).2) (parseRunArgs args).2
            (rewriteMainFile env.configText ("src/" ++ (parseRunArgs args).2))
            _ (fun q => by simp) (fun e m => by simp)
      · cases hrd : readMainFile env.configText with
        | none =>
          have hrp : runProject args env =
              finishRun env (parseRunArgs args).1
                (env.cwd ++ "/src/" ++ defaultEntryName) defaultEntryName
                env.configText [FsEvent.statToml, FsEvent.readConfig] := by
            unfold runProject
            dsimp only
            rw [if_neg ht, if_neg hr, if_neg htf, hrd]
          rw [hrp]
          exact finishRun_exe_spec env (parseRunArgs args).1
            (env.cwd ++ "/src/" ++ defaultEntryName) defaultEntryName
            env.configText _ (fun q => by simp) (fun e m => by simp)
        | some rel =>
          have hrp : runProject args env =
              finishRun env (parseRunArgs args).1
                (env.cwd ++ "/" ++ rel) (baseName (env.cwd ++ "/" ++ rel))
                env.configText [FsEvent.statToml, FsEvent.readConfig] := by
            unfold runProject
            dsimp only
            rw [if_neg ht, if_neg hr, if_neg htf, hrd]
          rw [hrp]
          exact finishRun_exe_spec env (parseRunArgs args).1
            (env.cwd ++ "/" ++ rel) (baseName (env.cwd ++ "/" ++ rel))
            env.configText _ (fun q => by simp) (fun e m => by simp)

/-- C10 witness: with the interpreter absent from the parent directory, a
run that reaches the lookup fails with the not-found message and never
invokes a subprocess. -/
theorem run_interpreter_lookup_witness :
    (FsEvent.statExe (interpreterPath
        (RunEnv.mk "/p" true true "main_file = \"src/a\"" true
          (fun s => s == "/p/src/a") false "")
        (parseRunArgs ["run"]).1) ∈
      (runProject ["run"]
        (RunEnv.mk "/p" true true "main_file = \"src/a\"" true
          (fun s => s == "/p/src/a") false "")).events ∧
     (RunEnv.mk "/p" true true "main_file = \"src/a\"" true
        (fun s => s == "/p/src/a") false "").fileExists
       (interpreterPath
         (RunEnv.mk "/p" true true "main_file = \"src/a\"" true
           (fun s => s == "/p/src/a") false "")
         (parseRunArgs ["run"]).1) = false) ∧
    ((runProject ["run"]
        (RunEnv.mk "/p" true true "main_file = \"src/a\"" true
          (fun s => s == "/p/src/a") false "")).exit = 1 ∧
     (runProject ["run"]
        (RunEnv.mk "/p" true true "main_file = \"src/a\"" true
          (fun s => s == "/p/src/a") false "")).errMsg =
       some ("Error: " ++ interpreterName (parseRunArgs ["run"]).1 ++
         " not found in parent directory.") ∧
     ∀ e m, FsEvent.execRun e m ∉ (runProject ["run"]
        (RunEnv.mk "/p" true true "main_file = \"src/a\"" true
          (fun s => s == "/p/src/a") false "")).events) :=
  ⟨⟨by decide, by decide⟩,
   (run_interpreter_lookup ["run"]
      (RunEnv.mk "/p" true true "main_file = \"src/a\"" true
        (fun s => s == "/p/src/a") false "")).2.1
     (by decide) (by decide)⟩

/-- Closed form of the argument-scan fold of `runProject`. -/
theorem parseRunArgs_foldl (rest : List String) :
    ∀ p t, List.foldl
      (fun acc a => if a == PREVIEW_FLAG then (true, acc.2) else (acc.1, a))
      (p, t) rest =
      (p || rest.any (fun a => a == PREVIEW_FLAG),
       (rest.filter (fun a => !(a == PREVIEW_FLAG))).getLastD t) := by
  induction rest with
  | nil => intro p t; simp
  | cons a rest ih =>
    intro p t
    rw [List.foldl_cons]
    dsimp only
    cases hb : (a == PREVIEW_FLAG) with
    | true =>
      rw [if_pos rfl, ih true t]
      have h1 : (a :: rest).any (fun a => a == PREVIEW_FLAG) = true := by
        rw [List.any_cons, hb, Bool.true_or]
      have h2 : List.filter (fun a => !(a == PREVIEW_FLAG)) (a :: rest) =
          List.filter (fun a => !(a == PREVIEW_FLAG)) rest := by
        rw [List.filter_cons, hb]
        simp
      rw [h1, h2, Bool.or_true, Bool.true_or]
    | false =>
      rw [if_neg (by decide : ¬(false = true)), ih p a]
      have h1 : (a :: rest).any (fun a => a == PREVIEW_FLAG) =
          rest.any (fun a => a == PREVIEW_FLAG) := by
        rw [List.any_cons, hb, Bool.false_or]
      have h2 : List.filter (fun a => !(a == PREVIEW_FLAG)) (a :: rest) =
          a :: List.filter (fun a => !(a == PREVIEW_FLAG)) rest := by
        rw [List.filter_cons, hb]
        simp
      rw [h1, h2, List.getLastD_cons]

/-- C4: `run` never fails on argument count — the dispatcher routes any
`run` argument list to `runProject` — and the argument scan sets preview
mode iff some argument equals `--preview` while the last non-flag
argument (default `""`) becomes the explicit target, independent of its
position relative to the flag. -/
theorem run_arg_scan (rest : List String) :
    mainDispatch ("run" :: rest) = DispatchResult.runProj ("run" :: rest) ∧
    parseRunArgs ("run" :: rest) =
      (rest.any (fun a => a == PREVIEW_FLAG),
       (rest.filter (fun a => !(a == PREVIEW_FLAG))).getLastD "") := by
  constructor
  · rfl
  · have := parseRunArgs_foldl rest false ""
    simpa [parseRunArgs] using this

/-- C8 counterexample: `new` with two following positional arguments does
not fail with a usage error; it proceeds using the first argument. -/
theorem dispatch_extra_args_accepted :
    mainDispatch ["new", "a", "b"] = DispatchResult.createProj "a" true ∧
    mainDispatch ["new", "a", "b"] ≠
      DispatchResult.usageError "Error: Project name required for new command" := by
  constructor
  · rfl
  · decide

/-- C8 amended: each of `new`, `init` and `add` requires at least one
following positional argument — with none it fails with a usage error
(message plus usage text, exit 1) — and any arguments beyond the first
are ignored, the command proceeding on the first. -/
theorem dispatch_requires_one_arg (x : String) (rest : List String) :
    mainDispatch ["new"] =
      DispatchResult.usageError "Error: Project name required for new command" ∧
    mainDispatch ["init"] =
      DispatchResult.usageError "Error: Project name required for init command" ∧
    mainDispatch ["add"] =
      DispatchResult.usageError "Error: File name required for add command" ∧
    mainDispatch ("new" :: x :: rest) = DispatchResult.createProj x true ∧
    mainDispatch ("init" :: x :: rest) = DispatchResult.createProj x false ∧
    mainDispatch ("add" :: x :: rest) = DispatchResult.addFile x :=
  ⟨rfl, rfl, rfl, rfl, rfl, rfl⟩

/-- C6: `new N` with any existing filesystem entry at `<cwd>/N` fails
with the already-exists error and exit status 1 before performing any
filesystem mutation: no directory is created or file written. -/
theorem new_existing_path_aborts (N : String) (env : NewEnv)
    (hex : env.pathExists (env.cwd ++ "/" ++ N) = true) :
    createProject N true env =
      ⟨1, some ("Error: Directory \"" ++ N ++ "\" already exists."),
        [CpEvent.statPath (env.cwd ++ "/" ++ N)]⟩ ∧
    (∀ d, CpEvent.mkdirAll d ∉ (createProject N true env).events) ∧
    (∀ p c, CpEvent.writeFileAt p c ∉ (createProject N true env).events) ∧
    mainDispatch ["new", N] = DispatchResult.createProj N true := by
  have h1 : createProject N true env =
      ⟨1, some ("Error: Directory \"" ++ N ++ "\" already exists."),
        [CpEvent.statPath (env.cwd ++ "/" ++ N)]⟩ := by
    unfold createProject
    simp [hex]
  refine ⟨h1, ?_, ?_, rfl⟩
  · intro d
    rw [h1]
    simp
  · intro p c
    rw [h1]
    simp

/-- C6 witness: a concrete `new` against an existing path aborts with
exit 1 and only the existence check in its trace. -/
theorem new_existing_path_aborts_witness :
    ((NewEnv.mk "/w" (fun s => s == "/w/demo") false true true true).pathExists
      ("/w" ++ "/" ++ "demo") = true) ∧
    (createProject "demo" true
        (NewEnv.mk "/w" (fun s => s == "/w/demo") false true true true) =
      ⟨1, some ("Error: Directory \"" ++ "demo" ++ "\" already exists."),
        [CpEvent.statPath ("/w" ++ "/" ++ "demo")]⟩ ∧
     (∀ d, CpEvent.mkdirAll d ∉ (createProject "demo" true
        (NewEnv.mk "/w" (fun s => s == "/w/demo") false true true true)).events) ∧
     (∀ p c, CpEvent.writeFileAt p c ∉ (createProject "demo" true
        (NewEnv.mk "/w" (fun s => s == "/w/demo") false true true true)).events) ∧
     mainDispatch ["new", "demo"] = DispatchResult.createProj "demo" true) :=
  ⟨by decide,
   new_existing_path_aborts "demo"
     (NewEnv.mk "/w" (fun s => s == "/w/demo") false true true true) (by decide)⟩

/-- C7: `add F` in a directory whose root lacks `bituin.toml` fails with
exit status 1 and the not-a-project message, creating no files and no
directories. -/
theorem add_outside_project_aborts (F : String) (env : NewEnv)
    (ht : env.tomlExists = false) :
    addMicroscriptFile F env =
      ⟨1, some "Error: Not in a Bituin project directory",
        [CpEvent.statPath (env.cwd ++ "/bituin.toml")]⟩ ∧
    (∀ d, CpEvent.mkdirAll d ∉ (addMicroscriptFile F env).events) ∧
    (∀ p c, CpEvent.writeFileAt p c ∉ (addMicroscriptFile F env).events) ∧
    mainDispatch ["add", F] = DispatchResult.addFile F := by
  have h1 : addMicroscriptFile F env =
      ⟨1, some "Error: Not in a Bituin project directory",
        [CpEvent.statPath (env.cwd ++ "/bituin.toml")]⟩ := by
    unfold addMicroscriptFile
    rw [if_pos ht]
  refine ⟨h1, ?_, ?_, rfl⟩
  · intro d
    rw [h1]
    simp
  · intro p c
    rw [h1]
    simp

/-- C7 witness: a concrete `add` outside a project aborts with exit 1,
the message, and only the marker check in its trace. -/
theorem add_outside_project_aborts_witness :
    ((NewEnv.mk "/w" (fun _ => false) false true true true).tomlExists = false) ∧
    (addMicroscriptFile "foo.microscript"
        (NewEnv.mk "/w" (fun _ => false) false true true true) =
      ⟨1, some "Error: Not in a Bituin project directory",
        [CpEvent.statPath ("/w" ++ "/bituin.toml")]⟩ ∧
     (∀ d, CpEvent.mkdirAll d ∉ (addMicroscriptFile "foo.microscript"
        (NewEnv.mk "/w" (fun _ => false) false true true true)).events) ∧
     (∀ p c, CpEvent.writeFileAt p c ∉ (addMicroscriptFile "foo.microscript"
        (NewEnv.mk "/w" (fun _ => false) false true true true)).events) ∧
     mainDispatch ["add", "foo.microscript"] =
       DispatchResult.addFile "foo.microscript") :=
  ⟨rfl,
   add_outside_project_aborts "foo.microscript"
     (NewEnv.mk "/w" (fun _ => false) false true true true) rfl⟩

/-- C2 counterexample: on a config with two `main_file` assignments the
rewrite performed by `run` changes both occurrences — the result differs
from the text in which only the first assignment is replaced. -/
theorem rewrite_first_only_counterexample :
    rewriteMainFile "main_file = \"a\"\nmain_file = \"b\"" "src/c" =
      "main_file = \"src/c\"\nmain_file = \"src/c\"" ∧
    rewriteMainFile "main_file = \"a\"\nmain_file = \"b\"" "src/c" ≠
      "main_file = \"src/c\"\nmain_file = \"b\"" := by
  constructor
  · decide
  · decide

/-- C2 amended: the rewrite replaces every occurrence of the
`main_file = "..."` assignment, not only the first: for a new path that
is nonempty and contains neither a double quote nor a dollar sign, every
assignment in the rewritten config points at the new path (and the
number of assignments is preserved). -/
theorem rewrite_replaces_every_occurrence (config P : String)
    (hmulti : 1 < (mainFileCaps config).length)
    (hne : P ≠ "") (hnq : NoQuoteL P.data) (hnd : NoDollarL P.data) :
    mainFileCaps (rewriteMainFile config P) =
      List.replicate (mainFileCaps config).length P := by
  have hcore := caps_after_rewrite P hne hnq hnd config.data.length config.data
    (le_refl _)
  unfold mainFileCaps rewriteMainFile
  dsimp only
  rw [hcore, List.map_replicate, List.length_map]

/-- C2 witness: a concrete two-assignment config where both assignments
end up pointing at the new path. -/
theorem rewrite_replaces_every_occurrence_witness :
    (1 < (mainFileCaps "main_file = \"a\"\nmain_file = \"b\"").length ∧
     ("src/app" : String) ≠ "" ∧ NoQuoteL ("src/app" : String).data ∧
     NoDollarL ("src/app" : String).data) ∧
    mainFileCaps (rewriteMainFile "main_file = \"a\"\nmain_file = \"b\"" "src/app") =
      List.replicate
        (mainFileCaps "main_file = \"a\"\nmain_file = \"b\"").length "src/app" :=
  ⟨⟨by decide, by decide, by unfold NoQuoteL; decide, by unfold NoDollarL; decide⟩,
   rewrite_replaces_every_occurrence "main_file = \"a\"\nmain_file = \"b\""
     "src/app" (by decide) (by decide) (by unfold NoQuoteL; decide)
     (by unfold NoDollarL; decide)⟩

/-- C3 counterexample: for the quote-free relative path `src/$1`,
rewriting and reading back does not return the written path — Go's
replacement-template expansion turns `$1` into the previous capture, so
the round trip yields `src/old` instead. -/
theorem roundtrip_dollar_counterexample :
    NoQuoteL ("src/$1" : String).data ∧
    readMainFile (rewriteMainFile "main_file = \"old\"" "src/$1") =
      some "src/old" ∧
    readMainFile (rewriteMainFile "main_file = \"old\"" "src/$1") ≠
      some "src/$1" := by
  refine ⟨by unfold NoQuoteL; decide, by decide, by decide⟩

/-- C3 amended: for every config text containing at least one
`main_file = "..."` assignment and every nonempty path `P` containing no
double quote and no dollar sign, rewriting the config's `main_file` to
`P` and then extracting `main_file` from the rewritten text yields
exactly `P`. -/
theorem rewrite_read_roundtrip (config P : String)
    (hsome : (readMainFile config).isSome = true)
    (hne : P ≠ "") (hnq : NoQuoteL P.data) (hnd : NoDollarL P.data) :
    readMainFile (rewriteMainFile config P) = some P :=
  rewrite_then_read config P hsome hne hnq hnd

/-- C3 witness: a concrete config and path for which the round trip
returns exactly the written path. -/
theorem rewrite_read_roundtrip_witness :
    ((readMainFile "name = \"x\"\nmain_file = \"src/main.microscript\"").isSome = true ∧
     ("src/app.microscript" : String) ≠ "" ∧
     NoQuoteL ("src/app.microscript" : String).data ∧
     NoDollarL ("src/app.microscript" : String).data) ∧
    readMainFile (rewriteMainFile "name = \"x\"\nmain_file = \"src/main.microscript\""
        "src/app.microscript") = some "src/app.microscript" :=
  ⟨⟨by decide, by decide, by unfold NoQuoteL; decide, by unfold NoDollarL; decide⟩,
   rewrite_read_roundtrip "name = \"x\"\nmain_file = \"src/main.microscript\""
     "src/app.microscript" (by decide) (by decide) (by unfold NoQuoteL; decide)
     (by unfold NoDollarL; decide)⟩

end Bituin
